import Mathlib

/-!
Shallow embedding of the grid-trading engine in `src/main.cpp` (classes
`RiskManager`, `GridOrderManager`, free function `gridTrading`), over exact
rationals in place of C++ `double`.  Orders are identified by the numeric
value of the static counter in `generateOrderId` (the C++ id is the string
`"ORDER_" + std::to_string(counter)`, and `n ↦ "ORDER_" ++ toString n` is
injective, so the counter value is a faithful identity).  `std::map` state is
embedded as association lists whose operations mirror the member calls used
by the code; `std::cout`/log output is dropped, except that the closure
events emitted by `closeOrdersAtGrid` are returned as a list so that they can
be reasoned about.
-/

set_option autoImplicit false
set_option linter.unusedVariables false

namespace GridCpp

/-- Order side; the C++ uses the strings `"buy"` and `"sell"`. -/
inductive Side where
  | buy
  | sell
deriving DecidableEq, Repr

/-- `struct Order` (src/main.cpp lines 72-82); constructed with `isOpen = true`. -/
structure Order where
  orderId : ℕ
  side : Side
  price : ℚ
  quantity : ℚ
  gridLevel : ℚ
  isOpen : Bool
deriving DecidableEq, Repr

/-- `struct Position` (src/main.cpp lines 85-92); default constructor zeroes all fields. -/
structure Position where
  quantity : ℚ
  avgPrice : ℚ
  totalCost : ℚ
  unrealizedPnL : ℚ
deriving DecidableEq, Repr

def Position.init : Position :=
  { quantity := 0, avgPrice := 0, totalCost := 0, unrealizedPnL := 0 }

/-- `class RiskManager` fields (src/main.cpp lines 95-101). -/
structure RiskManager where
  maxPositionSize : ℚ
  maxDrawdown : ℚ
  initialEquity : ℚ
  currentEquity : ℚ
  maxLossPerTrade : ℚ
deriving DecidableEq, Repr

/-- `RiskManager` constructor (src/main.cpp lines 104-109). -/
def RiskManager.init (initialEquity maxPositionSize maxDrawdownPercent maxLossPercent : ℚ) :
    RiskManager :=
  { maxPositionSize := maxPositionSize
    maxDrawdown := initialEquity * maxDrawdownPercent
    initialEquity := initialEquity
    currentEquity := initialEquity
    maxLossPerTrade := initialEquity * maxLossPercent }

/-- `RiskManager::canPlaceOrder` (src/main.cpp lines 111-126).  The `side`
argument is accepted but never read, exactly as in the source. -/
def RiskManager.canPlaceOrder (rm : RiskManager) (side : Side) (quantity price : ℚ) : Bool :=
  if quantity > rm.maxPositionSize then false
  else if quantity * price > rm.currentEquity then false
  else true

/-- `RiskManager::updateEquity` (src/main.cpp lines 128-135); the drawdown
comparison only prints a warning, so the state change is the equity update. -/
def RiskManager.updateEquity (rm : RiskManager) (pnl : ℚ) : RiskManager :=
  { rm with currentEquity := rm.currentEquity + pnl }

/-- The drawdown-warning condition tested inside `RiskManager::updateEquity`. -/
def RiskManager.drawdownWarning (rm : RiskManager) : Bool :=
  decide (rm.initialEquity - rm.currentEquity > rm.maxDrawdown)

/-- The `std::map<double, std::vector<Order>> gridOrders` member, as an
association list in key-insertion order (iteration order of `std::map` is by
key, which none of the verified properties depend on). -/
abbrev Book := List (ℚ × List Order)

/-- `gridOrders.find(gridLevel)` — the orders stored under a level, if the
level has an entry. -/
def bookFind (book : Book) (gridLevel : ℚ) : Option (List Order) :=
  (book.find? (fun e => decide (e.1 = gridLevel))).map Prod.snd

/-- `gridOrders[gridLevel].push_back(order)`: append to the existing entry,
or create a fresh singleton entry when the key is absent. -/
def bookPush (book : Book) (gridLevel : ℚ) (o : Order) : Book :=
  match book with
  | [] => [(gridLevel, [o])]
  | (k, orders) :: rest =>
      if k = gridLevel then (k, orders ++ [o]) :: rest
      else (k, orders) :: bookPush rest gridLevel o

/-- Body of `GridOrderManager::closeOrdersAtGrid` applied to one entry's
order vector (src/main.cpp lines 329-340): flip `isOpen` on every still-open
order. -/
def closeOrders (orders : List Order) : List Order :=
  orders.map (fun o => if o.isOpen then { o with isOpen := false } else o)

/-- The reconciliation loop of `GridOrderManager::updateGrids`
(src/main.cpp lines 207-218): every entry whose key is not in
`newGridLevels` has its orders closed (`closeOrdersAtGrid`) and is erased.
The second component collects the closure events (the orders as flagged by
`closeOrdersAtGrid`, which the C++ reports on `std::cout`). -/
def reconcileBook (book : Book) (newGridLevels : List ℚ) : Book × List Order :=
  match book with
  | [] => ([], [])
  | (k, orders) :: rest =>
      let r := reconcileBook rest newGridLevels
      if k ∈ newGridLevels then ((k, orders) :: r.1, r.2)
      else (r.1, closeOrders orders ++ r.2)

/-- The body of `GridOrderManager::shouldPlaceOrderAtGrid` (src/main.cpp
lines 221-232) as a function of the book alone (the method reads no other
state): true when the level has no entry, or its entry has no open order of
the given side. -/
def bookShouldPlace (book : Book) (gridLevel : ℚ) (side : Side) : Bool :=
  match bookFind book gridLevel with
  | none => true
  | some orders => !(orders.any (fun o => o.isOpen && decide (o.side = side)))

/-- `std::map<std::string, double> realizedPnL` keyed by trade id. -/
abbrev Ledger := List (ℕ × ℚ)

/-- `realizedPnL[id] = pnl` — `std::map::operator[]` assignment: overwrite the
existing entry or append a new one. -/
def mapAssign (m : Ledger) (k : ℕ) (v : ℚ) : Ledger :=
  if m.any (fun e => decide (e.1 = k)) then
    m.map (fun e => if e.1 = k then (k, v) else e)
  else m ++ [(k, v)]

/-- Sum of all values of the realized-PnL ledger (the total computed by
`printTradingStats`, src/main.cpp lines 283-286). -/
def ledgerSum (m : Ledger) : ℚ :=
  (m.map Prod.snd).sum

/-- `class GridOrderManager` state (src/main.cpp lines 141-150), together
with the static counter of `generateOrderId` (line 324), which belongs to
the single manager instance the program ever creates. -/
structure GridOrderManager where
  gridOrders : Book
  gridSpacing : ℚ
  minOrderQuantity : ℚ
  position : Position
  riskManager : RiskManager
  realizedPnL : Ledger
  orderCounter : ℕ
deriving DecidableEq, Repr

namespace GridOrderManager

/-- `GridOrderManager::generateOrderId` (src/main.cpp lines 323-326):
pre-increment the static counter and return it as the fresh id. -/
def generateOrderId (gm : GridOrderManager) : GridOrderManager × ℕ :=
  ({ gm with orderCounter := gm.orderCounter + 1 }, gm.orderCounter + 1)

/-- `GridOrderManager::updatePosition` (src/main.cpp lines 249-269).
A buy recomputes the volume-weighted average price and the total cost; a
sell decreases the quantity, books `(price − avgPrice) * quantity` in the
realized-PnL ledger under a freshly generated id, and forwards it to
`RiskManager::updateEquity`.  No input validation of any kind is performed. -/
def updatePosition (gm : GridOrderManager) (quantity price : ℚ) (isBuy : Bool) :
    GridOrderManager :=
  if isBuy then
    let newQuantity := gm.position.quantity + quantity
    { gm with position :=
        { gm.position with
            avgPrice := (gm.position.quantity * gm.position.avgPrice + quantity * price) /
              newQuantity
            quantity := newQuantity
            totalCost := gm.position.totalCost + quantity * price } }
  else
    let pos := { gm.position with quantity := gm.position.quantity - quantity }
    let pnl := (price - pos.avgPrice) * quantity
    let g := ({ gm with position := pos } : GridOrderManager).generateOrderId
    { g.1 with
        realizedPnL := mapAssign g.1.realizedPnL g.2 pnl
        riskManager := g.1.riskManager.updateEquity pnl }

/-- `GridOrderManager::shouldPlaceOrderAtGrid` (src/main.cpp lines 221-232):
true when the level has no entry, or its entry has no open order of the
given side. -/
def shouldPlaceOrderAtGrid (gm : GridOrderManager) (gridLevel : ℚ) (side : Side) : Bool :=
  bookShouldPlace gm.gridOrders gridLevel side

/-- `GridOrderManager::addOrder` (src/main.cpp lines 177-204): risk check
first (returning `false` with no state change on rejection), then push a new
open order under its grid level and apply the fill to the position. -/
def addOrder (gm : GridOrderManager) (side : Side) (price gridLevel : ℚ) :
    GridOrderManager × Bool :=
  if gm.riskManager.canPlaceOrder side gm.minOrderQuantity price = false then (gm, false)
  else
    let g := gm.generateOrderId
    let order : Order :=
      { orderId := g.2, side := side, price := price, quantity := gm.minOrderQuantity,
        gridLevel := gridLevel, isOpen := true }
    let gm2 := { g.1 with gridOrders := bookPush g.1.gridOrders gridLevel order }
    (gm2.updatePosition gm2.minOrderQuantity price (decide (side = Side.buy)), true)

/-- `GridOrderManager::updateGrids` (src/main.cpp lines 207-218). -/
def updateGrids (gm : GridOrderManager) (currentPrice : ℚ) (newGridLevels : List ℚ) :
    GridOrderManager :=
  { gm with gridOrders := (reconcileBook gm.gridOrders newGridLevels).1 }

end GridOrderManager

/-- C++ `std::round`: nearest integer, halfway cases away from zero. -/
def roundHalfAway (x : ℚ) : ℤ :=
  if x < 0 then -(⌊-x + 1 / 2⌋) else ⌊x + 1 / 2⌋

/-- The grid-level computation in `gridTrading` (src/main.cpp lines 352-356):
`baseGrid = std::round(price / spacing) * spacing`, then one level
`baseGrid + i * spacing` for each `i` from `-GRID_COUNT` to `GRID_COUNT`.
A negative `GRID_COUNT` makes the loop body run zero times.  There is no
validation of `spacing` or `GRID_COUNT` anywhere in the program. -/
def computeLevels (currentPrice gridSpacing : ℚ) (gridCount : ℤ) : List ℚ :=
  let baseGrid : ℚ := (roundHalfAway (currentPrice / gridSpacing) : ℚ) * gridSpacing
  (List.range (2 * gridCount + 1).toNat).map
    (fun (j : ℕ) => baseGrid + (((-gridCount + (j : ℤ) : ℤ) : ℚ) * gridSpacing))

/-- One iteration of the order-placement loop of `gridTrading`
(src/main.cpp lines 362-380) for the adjacent pair `(lowerGrid, upperGrid)`:
if the price is bracketed, a buy at `lowerGrid` when within
`gridSpacing * 0.1`, else a sell at `upperGrid` when within the same
tolerance; each guarded by `shouldPlaceOrderAtGrid`. -/
def crossingStep (price : ℚ) (gm : GridOrderManager) (lowerGrid upperGrid : ℚ) :
    GridOrderManager :=
  if lowerGrid < price ∧ price ≤ upperGrid then
    if |price - lowerGrid| < gm.gridSpacing * (1 / 10) then
      if gm.shouldPlaceOrderAtGrid lowerGrid Side.buy then
        (gm.addOrder Side.buy price lowerGrid).1
      else gm
    else if |price - upperGrid| < gm.gridSpacing * (1 / 10) then
      if gm.shouldPlaceOrderAtGrid upperGrid Side.sell then
        (gm.addOrder Side.sell price upperGrid).1
      else gm
    else gm
  else gm

/-- The order-placement loop of `gridTrading` over all adjacent level pairs. -/
def crossingLoop (price : ℚ) : GridOrderManager → List ℚ → GridOrderManager
  | gm, lowerGrid :: upperGrid :: rest =>
      crossingLoop price (crossingStep price gm lowerGrid upperGrid) (upperGrid :: rest)
  | gm, _ => gm

/-- The branch decisions of the order-placement loop, as data: the list of
`(side, level)` pairs for which the loop body reaches an
`shouldPlaceOrderAtGrid`/`addOrder` attempt, in loop order. -/
def crossingAttempts (price tol : ℚ) : List ℚ → List (Side × ℚ)
  | lowerGrid :: upperGrid :: rest =>
      (if lowerGrid < price ∧ price ≤ upperGrid then
        if |price - lowerGrid| < tol then [(Side.buy, lowerGrid)]
        else if |price - upperGrid| < tol then [(Side.sell, upperGrid)]
        else []
      else []) ++ crossingAttempts price tol (upperGrid :: rest)
  | _ => []

/-- The first adjacent pair `(lower, upper)` of the level list with
`lower < price ≤ upper`. -/
def bracketPair (price : ℚ) (levels : List ℚ) : Option (ℚ × ℚ) :=
  (levels.zip levels.tail).find? (fun e => decide (e.1 < price) && decide (price ≤ e.2))

/-- The configuration fields read by the engine (`config.json` keys used in
the `GridOrderManager` constructor and `gridTrading`). -/
structure Config where
  grid_spacing : ℚ
  grid_count : ℤ
  min_order_quantity : ℚ
  initial_investment : ℚ
  max_position_size : ℚ
  max_drawdown_percent : ℚ
  max_loss_per_trade_percent : ℚ
deriving DecidableEq, Repr

/-- The freshly constructed `GridOrderManager` (constructor, src/main.cpp
lines 153-168; the static order counter starts at 0). -/
def initManager (cfg : Config) : GridOrderManager :=
  { gridOrders := []
    gridSpacing := cfg.grid_spacing
    minOrderQuantity := cfg.min_order_quantity
    position := Position.init
    riskManager := RiskManager.init cfg.initial_investment cfg.max_position_size
      cfg.max_drawdown_percent cfg.max_loss_per_trade_percent
    realizedPnL := []
    orderCounter := 0 }

/-- The state change of one `gridTrading` call (src/main.cpp lines 344-393)
at a given fetched price: compute the levels, reconcile the book, run the
crossing loop.  Printing and sleeping are side-effect free on this state. -/
def tick (cfg : Config) (currentPrice : ℚ) (gm : GridOrderManager) : GridOrderManager :=
  let gridLevels := computeLevels currentPrice cfg.grid_spacing cfg.grid_count
  crossingLoop currentPrice (gm.updateGrids currentPrice gridLevels) gridLevels

/-- Engine states reachable from the freshly constructed manager by ticks at
arbitrary fetched prices. -/
inductive Reachable (cfg : Config) : GridOrderManager → Prop
  | init : Reachable cfg (initManager cfg)
  | step {gm : GridOrderManager} (price : ℚ) :
      Reachable cfg gm → Reachable cfg (tick cfg price gm)

/-- All open orders of a given side recorded anywhere in the book under a
given grid level (robust to duplicate keys: concatenates every entry whose
key is the level). -/
def openOrdersAt (book : Book) (gridLevel : ℚ) (side : Side) : List Order :=
  ((book.filter (fun e => decide (e.1 = gridLevel))).flatMap Prod.snd).filter
    (fun o => o.isOpen && decide (o.side = side))

/-- Number of open orders of a side in one entry's order vector. -/
def sideCount (orders : List Order) (side : Side) : ℕ :=
  (orders.filter (fun o => o.isOpen && decide (o.side = side))).length

/-- Well-formedness of the book: keys are distinct (as in `std::map`) and
every entry holds at most one open order per side. -/
def BookWF (book : Book) : Prop :=
  (book.map Prod.fst).Nodup ∧
    ∀ e ∈ book, sideCount e.2 Side.buy ≤ 1 ∧ sideCount e.2 Side.sell ≤ 1

instance : DecidablePred BookWF := fun book =>
  inferInstanceAs (Decidable (_ ∧ _))

/-- A concrete configuration used to instantiate theorems on closed inputs. -/
def sampleConfig : Config :=
  { grid_spacing := 10
    grid_count := 1
    min_order_quantity := 1
    initial_investment := 1000
    max_position_size := 5
    max_drawdown_percent := 1 / 5
    max_loss_per_trade_percent := 1 / 50 }

/-- A concrete open buy order for closed instantiations. -/
def sampleOrder : Order :=
  { orderId := 1, side := Side.buy, price := 100, quantity := 1, gridLevel := 100, isOpen := true }

/-- A concrete manager holding one open buy order at level 100. -/
def sampleManager : GridOrderManager :=
  { initManager sampleConfig with gridOrders := [(100, [sampleOrder])] }

/-! ### Helper lemmas -/

theorem mapAssign_fresh (m : Ledger) (k : ℕ) (v : ℚ) (h : ∀ e ∈ m, e.1 ≠ k) :
    mapAssign m k v = m ++ [(k, v)] := by
  have hany : m.any (fun e => decide (e.1 = k)) = false := by
    simp only [List.any_eq_false, decide_eq_true_eq]
    exact h
  simp [mapAssign, hany]

theorem ledgerSum_append_single (m : Ledger) (k : ℕ) (v : ℚ) :
    ledgerSum (m ++ [(k, v)]) = ledgerSum m + v := by
  simp [ledgerSum]

/-- A buy leaves the book, the ledger, the risk state and the order counter
untouched. -/
theorem updatePosition_buy_frame (gm : GridOrderManager) (q p : ℚ) :
    (gm.updatePosition q p true).gridOrders = gm.gridOrders
    ∧ (gm.updatePosition q p true).realizedPnL = gm.realizedPnL
    ∧ (gm.updatePosition q p true).riskManager = gm.riskManager
    ∧ (gm.updatePosition q p true).orderCounter = gm.orderCounter := by
  simp [GridOrderManager.updatePosition]

/-- A sell leaves the book untouched and does not change the average price or
the total cost. -/
theorem updatePosition_sell_frame (gm : GridOrderManager) (q p : ℚ) :
    (gm.updatePosition q p false).gridOrders = gm.gridOrders
    ∧ (gm.updatePosition q p false).position.avgPrice = gm.position.avgPrice
    ∧ (gm.updatePosition q p false).position.totalCost = gm.position.totalCost
    ∧ (gm.updatePosition q p false).orderCounter = gm.orderCounter + 1 := by
  simp [GridOrderManager.updatePosition, GridOrderManager.generateOrderId,
    RiskManager.updateEquity]

theorem crossingLoop_cons (price : ℚ) (gm : GridOrderManager) (a b : ℚ) (rest : List ℚ) :
    crossingLoop price gm (a :: b :: rest) =
      crossingLoop price (crossingStep price gm a b) (b :: rest) := rfl

theorem crossingLoop_single (price : ℚ) (gm : GridOrderManager) (a : ℚ) :
    crossingLoop price gm [a] = gm := rfl

theorem crossingLoop_nil (price : ℚ) (gm : GridOrderManager) :
    crossingLoop price gm [] = gm := rfl

/-- The position changes of a buy fill, written out. -/
theorem updatePosition_buy_position (gm : GridOrderManager) (q p : ℚ) :
    (gm.updatePosition q p true).position.quantity = gm.position.quantity + q
    ∧ (gm.updatePosition q p true).position.avgPrice =
        (gm.position.quantity * gm.position.avgPrice + q * p) / (gm.position.quantity + q)
    ∧ (gm.updatePosition q p true).position.totalCost = gm.position.totalCost + q * p := by
  simp [GridOrderManager.updatePosition]

/-- The state changes of a sell fill, written out. -/
theorem updatePosition_sell_effect (gm : GridOrderManager) (q p : ℚ) :
    (gm.updatePosition q p false).position.quantity = gm.position.quantity - q
    ∧ (gm.updatePosition q p false).realizedPnL =
        mapAssign gm.realizedPnL (gm.orderCounter + 1) ((p - gm.position.avgPrice) * q)
    ∧ (gm.updatePosition q p false).riskManager.currentEquity =
        gm.riskManager.currentEquity + (p - gm.position.avgPrice) * q
    ∧ (gm.updatePosition q p false).riskManager.initialEquity =
        gm.riskManager.initialEquity := by
  simp [GridOrderManager.updatePosition, GridOrderManager.generateOrderId,
    RiskManager.updateEquity]

/-! ### C8 -/

/-- C8: `canPlaceOrder` returns false exactly when the quantity exceeds the
maximum position size or the notional cost `quantity * price` exceeds the
current equity, and true in every other case; the result depends on no other
state — in particular not on the per-trade loss limit, and not on the `side`
argument. -/
theorem C8_canPlaceOrder_characterization :
    (∀ (rm : RiskManager) (side : Side) (quantity price : ℚ),
        rm.canPlaceOrder side quantity price = false ↔
          (quantity > rm.maxPositionSize ∨ quantity * price > rm.currentEquity))
    ∧ (∀ (rm : RiskManager) (side : Side) (quantity price : ℚ),
        rm.canPlaceOrder side quantity price = true ↔
          (quantity ≤ rm.maxPositionSize ∧ quantity * price ≤ rm.currentEquity))
    ∧ (∀ (rm : RiskManager) (side side' : Side) (quantity price x : ℚ),
        ({ rm with maxLossPerTrade := x } : RiskManager).canPlaceOrder side' quantity price =
          rm.canPlaceOrder side quantity price) := by
  refine ⟨fun rm side q p => ?_, fun rm side q p => ?_, fun rm side side' q p x => rfl⟩
  · unfold RiskManager.canPlaceOrder
    split_ifs with h1 h2 <;> simp_all
  · unfold RiskManager.canPlaceOrder
    split_ifs with h1 h2 <;> simp_all

/-! ### C10 -/

/-- C10: a sell fill is applied unconditionally — `updatePosition` on a sell
always subtracts the sold quantity, with no check against the held quantity;
from the freshly constructed manager (quantity 0, average price 0) a sell of
`q` at `p` leaves quantity `-q`, books realized PnL `p * q` in the ledger,
and raises the current equity by `p * q`. -/
theorem C10_sell_applied_unconditionally :
    (∀ (gm : GridOrderManager) (q p : ℚ),
        (gm.updatePosition q p false).position.quantity = gm.position.quantity - q)
    ∧ (∀ (cfg : Config) (q p : ℚ),
        ((initManager cfg).updatePosition q p false).position.quantity = -q
        ∧ ((initManager cfg).updatePosition q p false).realizedPnL = [(1, p * q)]
        ∧ ((initManager cfg).updatePosition q p false).riskManager.currentEquity =
            cfg.initial_investment + p * q) := by
  constructor
  · intro gm q p
    simp [GridOrderManager.updatePosition, GridOrderManager.generateOrderId,
      RiskManager.updateEquity]
  · intro cfg q p
    refine ⟨?_, ?_, ?_⟩ <;>
      simp [GridOrderManager.updatePosition, GridOrderManager.generateOrderId,
        RiskManager.updateEquity, initManager, Position.init, RiskManager.init, mapAssign]

/-! ### C3 -/

/-- C3 counterexample: the code rejects nothing — `updatePosition` applies a
zero-quantity buy fill (there is no `InvalidOrder` path anywhere in
src/main.cpp), and from the freshly constructed manager the resulting
`new_qty` is 0, so the average-price computation divides by zero (`0.0/0.0`
in the C++ doubles). -/
theorem C3_counterexample :
    ((initManager sampleConfig).updatePosition 0 5 true).position.quantity = 0 := by
  simp [GridOrderManager.updatePosition, initManager, Position.init]

/-- C3 amended: no zero-quantity rejection exists; `updatePosition` applies
every buy fill unconditionally, and `new_qty` can be zero (namely for a
zero-quantity buy on an empty position).  What does hold: whenever the fill
quantity is positive and the held quantity nonnegative — as in every engine
call, which fills `min_order_quantity` — the resulting quantity is positive,
so the average-price division is well defined. -/
theorem C3_amended_positive_quantity (gm : GridOrderManager) (q p : ℚ)
    (hq : 0 < q) (hpos : 0 ≤ gm.position.quantity) :
    (gm.updatePosition q p true).position.quantity = gm.position.quantity + q
    ∧ 0 < (gm.updatePosition q p true).position.quantity := by
  have h : (gm.updatePosition q p true).position.quantity = gm.position.quantity + q := by
    simp [GridOrderManager.updatePosition]
  exact ⟨h, by rw [h]; linarith⟩

theorem C3_witness :
    ((initManager sampleConfig).updatePosition 1 5 true).position.quantity =
        (initManager sampleConfig).position.quantity + 1
    ∧ 0 < ((initManager sampleConfig).updatePosition 1 5 true).position.quantity :=
  C3_amended_positive_quantity (initManager sampleConfig) 1 5 (by norm_num)
    (by simp [initManager, Position.init])

/-! ### C9 -/

/-- C9 counterexample: `compute_levels` does not fail on invalid input —
there is no `InvalidConfig` (or any validation) in the program.  With
`count = -1` the level loop body runs zero times and an empty sequence is
produced; with `spacing = -10` a (descending) sequence is produced. -/
theorem C9_counterexample :
    computeLevels 105 10 (-1) = [] ∧ computeLevels 105 (-10) 1 = [120, 110, 100] := by
  constructor
  · simp [computeLevels, show ((2:ℤ) * (-1) + 1).toNat = 0 from rfl]
  · have h : roundHalfAway (105 / (-10) : ℚ) = -11 := by norm_num [roundHalfAway]
    simp only [computeLevels, h, show ((2:ℤ) * 1 + 1).toNat = 3 from rfl,
      show List.range 3 = [0, 1, 2] from rfl, List.map]
    norm_num

/-- C9 amended: `compute_levels` performs no input validation and never
fails: for `count < 0` it returns the empty sequence, and for `count ≥ 0` it
returns `2*count+1` values regardless of the sign of `spacing`. -/
theorem C9_amended_no_validation :
    (∀ (price spacing : ℚ) (count : ℤ), count < 0 → computeLevels price spacing count = [])
    ∧ (∀ (price spacing : ℚ) (count : ℤ), 0 ≤ count →
        (computeLevels price spacing count).length = 2 * count.toNat + 1) := by
  constructor
  · intro p s c hc
    have h : (2 * c + 1).toNat = 0 := by omega
    simp [computeLevels, h]
  · intro p s c hc
    have h : (2 * c + 1).toNat = 2 * c.toNat + 1 := by omega
    simp only [computeLevels, h, List.length_map, List.length_range]

theorem C9_witness :
    computeLevels 105 10 (-2) = [] ∧ (computeLevels 7 3 2).length = 2 * (2:ℤ).toNat + 1 :=
  ⟨C9_amended_no_validation.1 105 10 (-2) (by norm_num),
   C9_amended_no_validation.2 7 3 2 (by norm_num)⟩

/-! ### C2 -/

/-- C2: from an empty position, two buys of `q1` at `p1` and `q2` at `p2`
leave the average price `(q1*p1+q2*p2)/(q1+q2)` and raise the total cost by
`q1*p1+q2*p2`; a subsequent sell of `q` at `p3` books realized PnL
`(p3 - avg) * q` in the ledger under a fresh trade id, decreases the
quantity by `q`, forwards the same amount to the Risk Manager's equity, and
leaves the average price unchanged. -/
theorem C2_position_tracking (gm gm1 gm2 gm3 : GridOrderManager) (q1 p1 q2 p2 q p3 : ℚ)
    (hq0 : gm.position.quantity = 0) (ha0 : gm.position.avgPrice = 0)
    (hkeys : ∀ e ∈ gm.realizedPnL, e.1 ≤ gm.orderCounter)
    (h1 : 0 < q1) (h2 : 0 < q2)
    (hg1 : gm1 = gm.updatePosition q1 p1 true)
    (hg2 : gm2 = gm1.updatePosition q2 p2 true)
    (hg3 : gm3 = gm2.updatePosition q p3 false) :
    gm2.position.avgPrice = (q1 * p1 + q2 * p2) / (q1 + q2)
    ∧ gm2.position.totalCost = gm.position.totalCost + (q1 * p1 + q2 * p2)
    ∧ gm3.realizedPnL =
        gm2.realizedPnL ++ [(gm2.orderCounter + 1, (p3 - gm2.position.avgPrice) * q)]
    ∧ (∀ e ∈ gm2.realizedPnL, e.1 ≠ gm2.orderCounter + 1)
    ∧ gm3.position.quantity = gm2.position.quantity - q
    ∧ gm3.riskManager.currentEquity =
        gm2.riskManager.currentEquity + (p3 - gm2.position.avgPrice) * q
    ∧ gm3.position.avgPrice = gm2.position.avgPrice := by
  have hq1 : q1 ≠ 0 := ne_of_gt h1
  have hq12 : q1 + q2 ≠ 0 := by positivity
  obtain ⟨hb1q, hb1a, hb1c⟩ := updatePosition_buy_position gm q1 p1
  obtain ⟨-, hb1l, hb1r, hb1n⟩ := updatePosition_buy_frame gm q1 p1
  obtain ⟨hb2q, hb2a, hb2c⟩ := updatePosition_buy_position gm1 q2 p2
  obtain ⟨-, hb2l, hb2r, hb2n⟩ := updatePosition_buy_frame gm1 q2 p2
  obtain ⟨hs3q, hs3l, hs3r, -⟩ := updatePosition_sell_effect gm2 q p3
  rw [← hg1] at hb1q hb1a hb1c hb1l hb1r hb1n
  rw [← hg2] at hb2q hb2a hb2c hb2l hb2r hb2n
  rw [← hg3] at hs3q hs3l hs3r
  have havg : gm2.position.avgPrice = (q1 * p1 + q2 * p2) / (q1 + q2) := by
    rw [hb2a, hb1q, hb1a, hq0, ha0]
    rw [zero_add, zero_mul, zero_add]
    rw [mul_div_cancel_left₀ p1 hq1]
  have hledger2 : gm2.realizedPnL = gm.realizedPnL := by rw [hb2l, hb1l]
  have hcnt2 : gm2.orderCounter = gm.orderCounter := by rw [hb2n, hb1n]
  refine ⟨havg, ?_, ?_, ?_, hs3q, hs3r, ?_⟩
  · rw [hb2c, hb1c]; ring
  · rw [hs3l, mapAssign_fresh]
    intro e he
    rw [hledger2] at he
    rw [hcnt2]
    have := hkeys e he
    omega
  · intro e he
    rw [hledger2] at he
    rw [hcnt2]
    have := hkeys e he
    omega
  · rw [hg3]
    exact (updatePosition_sell_frame gm2 q p3).2.1

theorem C2_witness :
    (((initManager sampleConfig).updatePosition 1 100 true).updatePosition 1 110
        true).position.avgPrice = (1 * 100 + 1 * 110) / (1 + 1) :=
  (C2_position_tracking (initManager sampleConfig)
    ((initManager sampleConfig).updatePosition 1 100 true)
    (((initManager sampleConfig).updatePosition 1 100 true).updatePosition 1 110 true)
    ((((initManager sampleConfig).updatePosition 1 100 true).updatePosition 1 110
        true).updatePosition 1 120 false)
    1 100 1 110 1 120
    (by simp [initManager, Position.init]) (by simp [initManager, Position.init])
    (by simp [initManager]) (by norm_num) (by norm_num) rfl rfl rfl).1

/-! ### C5 -/

/-- C5: for every price, positive spacing and nonnegative count, the level
computation produces exactly `2*count+1` values, strictly increasing, each
of the form `base + k*spacing` for `k` in `[-count, count]` (and only
those), containing the base `round(price/spacing)*spacing`, with common
difference `spacing` between adjacent levels. -/
theorem C5_computeLevels_spec (price spacing : ℚ) (count : ℤ)
    (hs : 0 < spacing) (hc : 0 ≤ count) :
    (computeLevels price spacing count).length = 2 * count.toNat + 1
    ∧ (computeLevels price spacing count).Pairwise (· < ·)
    ∧ (∀ x : ℚ, x ∈ computeLevels price spacing count ↔
        ∃ k : ℤ, -count ≤ k ∧ k ≤ count ∧
          x = (roundHalfAway (price / spacing) : ℚ) * spacing + k * spacing)
    ∧ (roundHalfAway (price / spacing) : ℚ) * spacing ∈ computeLevels price spacing count
    ∧ (∀ i : ℕ, i + 1 < (computeLevels price spacing count).length →
        (computeLevels price spacing count).get? (i + 1) =
          ((computeLevels price spacing count).get? i).map (fun x => x + spacing)) := by
  have hn : (2 * count + 1).toNat = 2 * count.toNat + 1 := by omega
  have hlen : (computeLevels price spacing count).length = 2 * count.toNat + 1 := by
    simp only [computeLevels, List.length_map, List.length_range, hn]
  have hmem : ∀ x : ℚ, x ∈ computeLevels price spacing count ↔
      ∃ k : ℤ, -count ≤ k ∧ k ≤ count ∧
        x = (roundHalfAway (price / spacing) : ℚ) * spacing + k * spacing := by
    intro x
    simp only [computeLevels, List.mem_map, List.mem_range]
    constructor
    · rintro ⟨j, hj, rfl⟩
      refine ⟨-count + (j : ℤ), by omega, by omega, rfl⟩
    · rintro ⟨k, hk1, hk2, rfl⟩
      refine ⟨(k + count).toNat, by omega, ?_⟩
      have hcast : ((k + count).toNat : ℤ) = k + count := Int.toNat_of_nonneg (by omega)
      rw [hcast]
      ring_nf
  refine ⟨hlen, ?_, hmem, ?_, ?_⟩
  · simp only [computeLevels]
    refine List.Pairwise.map _ ?_ (List.pairwise_lt_range _)
    intro a b hab
    have hab' : ((-count + (a : ℤ) : ℤ) : ℚ) < ((-count + (b : ℤ) : ℤ) : ℚ) := by
      exact_mod_cast (by omega : (-count + (a : ℤ) : ℤ) < -count + (b : ℤ))
    exact add_lt_add_left (mul_lt_mul_of_pos_right hab' hs) _
  · exact (hmem _).2 ⟨0, by omega, by omega, by ring⟩
  · intro i hi
    rw [hlen] at hi
    have h1 : i + 1 < (2 * count + 1).toNat := by omega
    have h0 : i < (2 * count + 1).toNat := by omega
    simp only [computeLevels, List.get?_map, List.get?_range h1, List.get?_range h0,
      Option.map_some', Option.some.injEq]
    push_cast
    ring

theorem C5_witness :
    (computeLevels 105 10 1).length = 2 * (1:ℤ).toNat + 1
    ∧ (computeLevels 105 10 1).Pairwise (· < ·)
    ∧ ((110:ℚ) ∈ computeLevels 105 10 1 ↔ ∃ k : ℤ, -1 ≤ k ∧ k ≤ 1 ∧
        (110:ℚ) = (roundHalfAway ((105:ℚ) / 10) : ℚ) * 10 + k * 10)
    ∧ (roundHalfAway ((105:ℚ) / 10) : ℚ) * 10 ∈ computeLevels 105 10 1
    ∧ ((computeLevels 105 10 1).get? (0 + 1) =
        ((computeLevels 105 10 1).get? 0).map (fun x => x + 10)) :=
  ⟨(C5_computeLevels_spec 105 10 1 (by norm_num) (by norm_num)).1,
   (C5_computeLevels_spec 105 10 1 (by norm_num) (by norm_num)).2.1,
   (C5_computeLevels_spec 105 10 1 (by norm_num) (by norm_num)).2.2.1 110,
   (C5_computeLevels_spec 105 10 1 (by norm_num) (by norm_num)).2.2.2.1,
   (C5_computeLevels_spec 105 10 1 (by norm_num) (by norm_num)).2.2.2.2 0
     (by rw [(C5_computeLevels_spec 105 10 1 (by norm_num) (by norm_num)).1]; norm_num)⟩

/-! ### C4 -/

/-- Unfolding lemma for the crossing-attempt list. -/
theorem crossingAttempts_cons (price tol a b : ℚ) (rest : List ℚ) :
    crossingAttempts price tol (a :: b :: rest) =
      (if a < price ∧ price ≤ b then
        if |price - a| < tol then [(Side.buy, a)]
        else if |price - b| < tol then [(Side.sell, b)]
        else []
      else []) ++ crossingAttempts price tol (b :: rest) := rfl

/-- Unfolding lemma for the first bracketing pair. -/
theorem bracketPair_cons (price a b : ℚ) (rest : List ℚ) :
    bracketPair price (a :: b :: rest) =
      if a < price ∧ price ≤ b then some (a, b) else bracketPair price (b :: rest) := by
  unfold bracketPair
  simp only [List.tail_cons, List.zip_cons_cons]
  by_cases h : a < price ∧ price ≤ b
  · rw [if_pos h, List.find?_cons_of_pos]
    simp [h.1, h.2]
  · rw [if_neg h, List.find?_cons_of_neg]
    simp only [Bool.and_eq_true, decide_eq_true_eq]
    exact fun hc => h hc

/-- When the price is at or below every level, neither an attempt nor a
bracketing pair exists. -/
theorem crossingAttempts_of_no_lower (price tol : ℚ) (levels : List ℚ)
    (h : ∀ a ∈ levels, ¬ a < price) :
    crossingAttempts price tol levels = [] ∧ bracketPair price levels = none := by
  induction levels with
  | nil => exact ⟨rfl, rfl⟩
  | cons a tail ih =>
    cases tail with
    | nil => exact ⟨rfl, rfl⟩
    | cons b rest =>
      have ha : ¬ a < price := h a (List.mem_cons_self a _)
      have ht := ih (fun x hx => h x (List.mem_cons_of_mem a hx))
      constructor
      · rw [crossingAttempts_cons, if_neg (fun hc => ha hc.1), List.nil_append]
        exact ht.1
      · rw [bracketPair_cons, if_neg (fun hc => ha hc.1)]
        exact ht.2

/-- For a strictly ascending level list, the crossing loop's branch decisions
are exactly: locate the unique bracketing pair, then buy at the lower level
when within tolerance, else sell at the upper level when within tolerance,
else nothing. -/
theorem crossingAttempts_characterization (price tol : ℚ) (levels : List ℚ)
    (hs : levels.Pairwise (· < ·)) :
    crossingAttempts price tol levels =
      (match bracketPair price levels with
       | none => []
       | some e =>
          if |price - e.1| < tol then [(Side.buy, e.1)]
          else if |price - e.2| < tol then [(Side.sell, e.2)]
          else []) := by
  induction levels with
  | nil => rfl
  | cons a tail ih =>
    cases tail with
    | nil => rfl
    | cons b rest =>
      have hs' : (b :: rest).Pairwise (· < ·) := hs.of_cons
      rw [crossingAttempts_cons, bracketPair_cons]
      by_cases h : a < price ∧ price ≤ b
      · rw [if_pos h, if_pos h]
        have hall : ∀ x ∈ b :: rest, ¬ x < price := by
          intro x hx
          rcases List.mem_cons.1 hx with rfl | hx'
          · exact fun hlt => absurd h.2 (not_le.2 hlt)
          · have hbx : b < x := List.rel_of_pairwise_cons hs' hx'
            intro hlt
            have := h.2
            linarith
        rw [(crossingAttempts_of_no_lower price tol (b :: rest) hall).1, List.append_nil]
      · rw [if_neg h, if_neg h, List.nil_append]
        exact ih hs'

/-- The grid of the C4 scenario: `std::round(10.5) = 11`, so the base is
110 and the levels are `[100, 110, 120]`. -/
theorem computeLevels_105_10_1 : computeLevels 105 10 1 = [100, 110, 120] := by
  have h : roundHalfAway (105 / 10 : ℚ) = 11 := by norm_num [roundHalfAway]
  simp only [computeLevels, h, show ((2:ℤ) * 1 + 1).toNat = 3 from rfl,
    show List.range 3 = [0, 1, 2] from rfl, List.map]
  norm_num

/-- C4 counterexample: with spacing 10, count 1 and price 105 the computed
levels are `[100, 110, 120]`, not `[90, 100, 110]` as the claim asserts
(`std::round(10.5)` rounds half away from zero, giving base 110). -/
theorem C4_counterexample :
    computeLevels 105 10 1 = [100, 110, 120]
    ∧ computeLevels 105 10 1 ≠ [90, 100, 110] := by
  refine ⟨computeLevels_105_10_1, ?_⟩
  rw [computeLevels_105_10_1]
  intro hc
  have := List.head_eq_of_cons_eq hc
  norm_num at this

/-- C4 amended: per tick at most one order attempt is produced; for the
unique bracketing pair `(lower, upper)` of the strictly ascending levels
with `lower < price ≤ upper`, a buy at `lower` is attempted exactly when
`|price - lower| < tol`, otherwise a sell at `upper` exactly when
`|price - upper| < tol`.  In the concrete scenario spacing=10, count=1,
price=105, the levels are `[100, 110, 120]` (not `[90, 100, 110]`), price
lies in the bracket `(100, 110]`, both distances are `5 ≥ 1`, and the tick
places no order and leaves the engine state unchanged. -/
theorem C4_crossing_tolerance (price tol : ℚ) (levels : List ℚ)
    (hs : levels.Pairwise (· < ·)) :
    crossingAttempts price tol levels =
      (match bracketPair price levels with
       | none => []
       | some e =>
          if |price - e.1| < tol then [(Side.buy, e.1)]
          else if |price - e.2| < tol then [(Side.sell, e.2)]
          else [])
    ∧ (crossingAttempts price tol levels).length ≤ 1
    ∧ crossingAttempts 105 1 (computeLevels 105 10 1) = []
    ∧ tick sampleConfig 105 (initManager sampleConfig) = initManager sampleConfig := by
  have hchar := crossingAttempts_characterization price tol levels hs
  refine ⟨hchar, ?_, ?_, ?_⟩
  · rw [hchar]
    cases hb : bracketPair price levels with
    | none => simp
    | some e =>
      have hred : (match some e with
         | none => ([] : List (Side × ℚ))
         | some e =>
            if |price - e.1| < tol then [(Side.buy, e.1)]
            else if |price - e.2| < tol then [(Side.sell, e.2)]
            else []) =
          (if |price - e.1| < tol then [(Side.buy, e.1)]
           else if |price - e.2| < tol then [(Side.sell, e.2)]
           else []) := rfl
      rw [hred]
      split_ifs <;> simp
  · rw [computeLevels_105_10_1]
    have h1 : ¬ |(105:ℚ) - 100| < 1 := by rw [abs_lt]; norm_num
    have h2 : ¬ |(105:ℚ) - 110| < 1 := by rw [abs_lt]; norm_num
    rw [crossingAttempts_cons, if_pos (by norm_num), if_neg h1, if_neg h2,
      crossingAttempts_cons, if_neg (by norm_num), List.nil_append, List.nil_append]
    rfl
  · have h1 : sampleConfig.grid_spacing = 10 := rfl
    have h2 : sampleConfig.grid_count = 1 := rfl
    have h3 : (initManager sampleConfig).updateGrids 105 [100, 110, 120] =
        initManager sampleConfig := by
      simp [GridOrderManager.updateGrids, initManager, reconcileBook]
    have h4 : crossingStep 105 (initManager sampleConfig) 100 110 =
        initManager sampleConfig := by
      simp only [crossingStep]
      rw [if_pos (by norm_num), if_neg, if_neg]
      · show ¬ |105 - (110:ℚ)| < (initManager sampleConfig).gridSpacing * (1 / 10)
        show ¬ |105 - (110:ℚ)| < 10 * (1 / 10)
        rw [abs_lt]; norm_num
      · show ¬ |105 - (100:ℚ)| < 10 * (1 / 10)
        rw [abs_lt]; norm_num
    have h5 : crossingStep 105 (initManager sampleConfig) 110 120 =
        initManager sampleConfig := by
      simp only [crossingStep]
      rw [if_neg]
      norm_num
    rw [tick]
    simp only [h1, h2]
    rw [computeLevels_105_10_1, h3, crossingLoop_cons, h4, crossingLoop_cons, h5,
      crossingLoop_single]

theorem C4_witness :
    (crossingAttempts 105 1 [100, 110, 120] =
      (match bracketPair 105 [100, 110, 120] with
       | none => []
       | some e =>
          if |(105:ℚ) - e.1| < 1 then [(Side.buy, e.1)]
          else if |(105:ℚ) - e.2| < 1 then [(Side.sell, e.2)]
          else []))
    ∧ (crossingAttempts 105 1 [100, 110, 120]).length ≤ 1
    ∧ crossingAttempts 105 1 (computeLevels 105 10 1) = []
    ∧ tick sampleConfig 105 (initManager sampleConfig) = initManager sampleConfig :=
  C4_crossing_tolerance 105 1 [100, 110, 120]
    (by norm_num [List.pairwise_cons])

/-! ### C7 -/

theorem bookFind_nil (lvl : ℚ) : bookFind [] lvl = none := rfl

theorem bookFind_cons (k : ℚ) (os : List Order) (rest : Book) (lvl : ℚ) :
    bookFind ((k, os) :: rest) lvl = if k = lvl then some os else bookFind rest lvl := by
  unfold bookFind
  by_cases h : k = lvl
  · rw [if_pos h, List.find?_cons_of_pos]
    · rfl
    · exact decide_eq_true h
  · rw [if_neg h, List.find?_cons_of_neg]
    simp [h]

/-- The closed image of a stored order belongs to `closeOrdersAtGrid`'s
output for its vector. -/
theorem closeOrders_mem (os : List Order) (o : Order) (ho : o ∈ os) :
    { o with isOpen := false } ∈ closeOrders os := by
  refine List.mem_map.2 ⟨o, ho, ?_⟩
  cases o with
  | mk oid osd opr oq og oo => cases oo <;> simp

theorem reconcileBook_cons (k : ℚ) (os : List Order) (rest : Book) (nl : List ℚ) :
    reconcileBook ((k, os) :: rest) nl =
      if k ∈ nl then ((k, os) :: (reconcileBook rest nl).1, (reconcileBook rest nl).2)
      else ((reconcileBook rest nl).1, closeOrders os ++ (reconcileBook rest nl).2) := by
  by_cases h : k ∈ nl <;> simp [reconcileBook, h]

/-- A level absent from the new grid has no entry after reconciliation. -/
theorem reconcileBook_find_none (book : Book) (nl : List ℚ) (lvl : ℚ) (h : lvl ∉ nl) :
    bookFind (reconcileBook book nl).1 lvl = none := by
  induction book with
  | nil => rfl
  | cons e rest ih =>
    obtain ⟨k, os⟩ := e
    rw [reconcileBook_cons]
    by_cases hk : k ∈ nl
    · rw [if_pos hk]
      have hkl : k ≠ lvl := fun hc => h (hc ▸ hk)
      rw [bookFind_cons, if_neg hkl]
      exact ih
    · rw [if_neg hk]
      exact ih

/-- A level kept by the new grid keeps exactly its old entry. -/
theorem reconcileBook_find_kept (book : Book) (nl : List ℚ) (lvl : ℚ) (h : lvl ∈ nl) :
    bookFind (reconcileBook book nl).1 lvl = bookFind book lvl := by
  induction book with
  | nil => rfl
  | cons e rest ih =>
    obtain ⟨k, os⟩ := e
    rw [reconcileBook_cons]
    by_cases hk : k ∈ nl
    · rw [if_pos hk, bookFind_cons, bookFind_cons]
      by_cases hkl : k = lvl
      · rw [if_pos hkl, if_pos hkl]
      · rw [if_neg hkl, if_neg hkl]
        exact ih
    · rw [if_neg hk]
      have hkl : k ≠ lvl := fun hc => hk (hc ▸ h)
      rw [bookFind_cons, if_neg hkl]
      exact ih

/-- Every closure event reports a closed order. -/
theorem reconcileBook_events_closed (book : Book) (nl : List ℚ) :
    ∀ o ∈ (reconcileBook book nl).2, o.isOpen = false := by
  induction book with
  | nil => intro o ho; cases ho
  | cons e rest ih =>
    obtain ⟨k, os⟩ := e
    rw [reconcileBook_cons]
    by_cases hk : k ∈ nl
    · rw [if_pos hk]
      exact ih
    · rw [if_neg hk]
      intro o ho
      rcases List.mem_append.1 ho with h1 | h2
      · obtain ⟨o', ho', rfl⟩ := List.mem_map.1 h1
        by_cases hop : o'.isOpen <;> simp [hop]
      · exact ih o h2

/-- The closed image of every order of a dropped level appears among the
closure events. -/
theorem reconcileBook_events_complete (book : Book) (nl : List ℚ) (lvl : ℚ)
    (orders : List Order) (h : lvl ∉ nl) (hf : bookFind book lvl = some orders) :
    ∀ o ∈ orders, { o with isOpen := false } ∈ (reconcileBook book nl).2 := by
  induction book with
  | nil => cases hf
  | cons e rest ih =>
    obtain ⟨k, os⟩ := e
    rw [bookFind_cons] at hf
    rw [reconcileBook_cons]
    by_cases hkl : k = lvl
    · rw [if_pos hkl] at hf
      have hk : k ∉ nl := hkl ▸ h
      rw [if_neg hk]
      intro o ho
      apply List.mem_append_left
      have hos : orders = os := by injection hf with h'; exact h'.symm
      subst hos
      exact closeOrders_mem _ o ho
    · rw [if_neg hkl] at hf
      intro o ho
      by_cases hk : k ∈ nl
      · rw [if_pos hk]
        exact ih hf o ho
      · rw [if_neg hk]
        exact List.mem_append_right _ (ih hf o ho)

/-- C7: after `updateGrids(new_levels)`, every previously tracked level
absent from `new_levels` has its entry dropped — a subsequent
`shouldPlaceOrderAtGrid` query at that level returns true for either side —
and every order formerly stored at it is reported closed by the closure
events of `closeOrdersAtGrid`; every level present in `new_levels` keeps its
entry (and so its orders) unchanged. -/
theorem C7_updateGrids_reconcile (gm : GridOrderManager) (currentPrice : ℚ)
    (newLevels : List ℚ) :
    (∀ lvl : ℚ, lvl ∉ newLevels →
        bookFind (gm.updateGrids currentPrice newLevels).gridOrders lvl = none)
    ∧ (∀ (lvl : ℚ) (side : Side), lvl ∉ newLevels →
        (gm.updateGrids currentPrice newLevels).shouldPlaceOrderAtGrid lvl side = true)
    ∧ (∀ lvl : ℚ, lvl ∈ newLevels →
        bookFind (gm.updateGrids currentPrice newLevels).gridOrders lvl =
          bookFind gm.gridOrders lvl)
    ∧ (∀ o ∈ (reconcileBook gm.gridOrders newLevels).2, o.isOpen = false)
    ∧ (∀ (lvl : ℚ) (orders : List Order), lvl ∉ newLevels →
        bookFind gm.gridOrders lvl = some orders →
        ∀ o ∈ orders,
          { o with isOpen := false } ∈ (reconcileBook gm.gridOrders newLevels).2) := by
  refine ⟨?_, ?_, ?_, reconcileBook_events_closed _ _, ?_⟩
  · intro lvl h
    exact reconcileBook_find_none gm.gridOrders newLevels lvl h
  · intro lvl side h
    unfold GridOrderManager.shouldPlaceOrderAtGrid bookShouldPlace
    rw [show (gm.updateGrids currentPrice newLevels).gridOrders =
        (reconcileBook gm.gridOrders newLevels).1 from rfl,
      reconcileBook_find_none gm.gridOrders newLevels lvl h]
  · intro lvl h
    exact reconcileBook_find_kept gm.gridOrders newLevels lvl h
  · intro lvl orders h hf
    exact reconcileBook_events_complete gm.gridOrders newLevels lvl orders h hf

theorem C7_witness :
    bookFind (sampleManager.updateGrids 105 [110]).gridOrders 100 = none
    ∧ (sampleManager.updateGrids 105 [110]).shouldPlaceOrderAtGrid 100 Side.sell = true
    ∧ bookFind (sampleManager.updateGrids 105 [110]).gridOrders 110 =
        bookFind sampleManager.gridOrders 110
    ∧ ({ sampleOrder with isOpen := false } : Order).isOpen = false
    ∧ { sampleOrder with isOpen := false } ∈ (reconcileBook sampleManager.gridOrders [110]).2 :=
  ⟨(C7_updateGrids_reconcile sampleManager 105 [110]).1 100 (by norm_num),
   (C7_updateGrids_reconcile sampleManager 105 [110]).2.1 100 Side.sell (by norm_num),
   (C7_updateGrids_reconcile sampleManager 105 [110]).2.2.1 110 (by norm_num),
   (C7_updateGrids_reconcile sampleManager 105 [110]).2.2.2.1
     { sampleOrder with isOpen := false }
     (by norm_num [reconcileBook, closeOrders, sampleManager, sampleOrder, initManager]),
   (C7_updateGrids_reconcile sampleManager 105 [110]).2.2.2.2 100 [sampleOrder]
     (by norm_num)
     (by norm_num [bookFind, sampleManager, initManager])
     sampleOrder (List.mem_singleton.2 rfl)⟩

/-! ### Book lemmas for the push operation -/

theorem bookPush_nil (lvl : ℚ) (o : Order) : bookPush [] lvl o = [(lvl, [o])] := rfl

theorem bookPush_cons (k : ℚ) (os : List Order) (rest : Book) (lvl : ℚ) (o : Order) :
    bookPush ((k, os) :: rest) lvl o =
      if k = lvl then (k, os ++ [o]) :: rest else (k, os) :: bookPush rest lvl o := rfl

/-- Keys after a push: the old keys, plus possibly the pushed level. -/
theorem keys_bookPush (book : Book) (lvl : ℚ) (o : Order) :
    ∀ x ∈ (bookPush book lvl o).map Prod.fst, x ∈ book.map Prod.fst ∨ x = lvl := by
  induction book with
  | nil =>
    intro x hx
    simp only [bookPush_nil, List.map_cons, List.map_nil, List.mem_singleton] at hx
    exact Or.inr hx
  | cons e rest ih =>
    obtain ⟨k, os⟩ := e
    intro x hx
    rw [bookPush_cons] at hx
    by_cases h : k = lvl
    · rw [if_pos h] at hx
      simp only [List.map_cons, List.mem_cons] at hx ⊢
      tauto
    · rw [if_neg h] at hx
      simp only [List.map_cons, List.mem_cons] at hx ⊢
      rcases hx with rfl | hx'
      · tauto
      · rcases ih x hx' with h1 | h2 <;> tauto

theorem bookWF_nil : BookWF [] := by
  constructor
  · exact List.nodup_nil
  · intro e he; cases he

theorem bookWF_cons_iff (k : ℚ) (os : List Order) (rest : Book) :
    BookWF ((k, os) :: rest) ↔
      k ∉ rest.map Prod.fst ∧ sideCount os Side.buy ≤ 1 ∧ sideCount os Side.sell ≤ 1
        ∧ BookWF rest := by
  unfold BookWF
  constructor
  · rintro ⟨hnd, hent⟩
    rw [List.map_cons, List.nodup_cons] at hnd
    exact ⟨hnd.1, (hent (k, os) (List.mem_cons_self _ _)).1,
      (hent (k, os) (List.mem_cons_self _ _)).2, hnd.2,
      fun e he => hent e (List.mem_cons_of_mem _ he)⟩
  · rintro ⟨hk, hb, hs, hnd, hent⟩
    refine ⟨?_, ?_⟩
    · rw [List.map_cons, List.nodup_cons]
      exact ⟨hk, hnd⟩
    · intro e he
      rcases List.mem_cons.1 he with rfl | he'
      · exact ⟨hb, hs⟩
      · exact hent e he'

/-- `shouldPlaceOrderAtGrid` true means zero open orders of that side in the
first entry found for the level. -/
theorem bookShouldPlace_cons (k : ℚ) (os : List Order) (rest : Book) (lvl : ℚ) (side : Side) :
    bookShouldPlace ((k, os) :: rest) lvl side =
      if k = lvl then !(os.any (fun o => o.isOpen && decide (o.side = side)))
      else bookShouldPlace rest lvl side := by
  unfold bookShouldPlace
  rw [bookFind_cons]
  by_cases h : k = lvl
  · rw [if_pos h, if_pos h]
  · rw [if_neg h, if_neg h]

theorem sideCount_eq_zero_of_not_any (os : List Order) (side : Side)
    (h : (os.any (fun o => o.isOpen && decide (o.side = side))) = false) :
    sideCount os side = 0 := by
  unfold sideCount
  rw [List.length_eq_zero, List.filter_eq_nil]
  intro o ho
  have := List.any_eq_false.1 h o ho
  simpa using this

theorem sideCount_append (os os' : List Order) (side : Side) :
    sideCount (os ++ os') side = sideCount os side + sideCount os' side := by
  unfold sideCount
  rw [List.filter_append, List.length_append]

theorem sideCount_singleton_le (o : Order) (side : Side) :
    sideCount [o] side ≤ 1 := by
  unfold sideCount
  cases h : (o.isOpen && decide (o.side = side)) <;> simp [List.filter, h]

theorem sideCount_singleton_other (o : Order) (side : Side) (h : o.side ≠ side) :
    sideCount [o] side = 0 := by
  unfold sideCount
  simp [List.filter, h]

/-- Pushing an order into a level whose `shouldPlaceOrderAtGrid` check
passed for the order's side preserves book well-formedness. -/
theorem bookWF_push (book : Book) (lvl : ℚ) (o : Order)
    (hwf : BookWF book) (hsp : bookShouldPlace book lvl o.side = true) :
    BookWF (bookPush book lvl o) := by
  induction book with
  | nil =>
    rw [bookPush_nil, bookWF_cons_iff]
    refine ⟨by simp, sideCount_singleton_le o Side.buy, sideCount_singleton_le o Side.sell,
      bookWF_nil⟩
  | cons e rest ih =>
    obtain ⟨k, os⟩ := e
    rw [bookWF_cons_iff] at hwf
    obtain ⟨hkey, hbuy, hsell, hrest⟩ := hwf
    rw [bookShouldPlace_cons] at hsp
    rw [bookPush_cons]
    by_cases h : k = lvl
    · rw [if_pos h] at hsp ⊢
      have hzero : sideCount os o.side = 0 :=
        sideCount_eq_zero_of_not_any os o.side (by
          cases hy : os.any (fun x => x.isOpen && decide (x.side = o.side))
          · rfl
          · rw [hy] at hsp; cases hsp)
      rw [bookWF_cons_iff]
      refine ⟨hkey, ?_, ?_, hrest⟩
      · rw [sideCount_append]
        cases hside : o.side
        · rw [← hside, hzero]
          simpa using sideCount_singleton_le o o.side
        · have : o.side ≠ Side.buy := by rw [hside]; intro hc; cases hc
          rw [sideCount_singleton_other o Side.buy this]
          omega
      · rw [sideCount_append]
        cases hside : o.side
        · have : o.side ≠ Side.sell := by rw [hside]; intro hc; cases hc
          rw [sideCount_singleton_other o Side.sell this]
          omega
        · rw [← hside, hzero]
          simpa using sideCount_singleton_le o o.side
    · rw [if_neg h] at hsp ⊢
      rw [bookWF_cons_iff]
      refine ⟨?_, hbuy, hsell, ih hrest hsp⟩
      intro hc
      rcases keys_bookPush rest lvl o k hc with h1 | h2
      · exact hkey h1
      · exact h h2

/-! ### State-level invariant plumbing -/

theorem updatePosition_gridOrders (gm : GridOrderManager) (q p : ℚ) (b : Bool) :
    (gm.updatePosition q p b).gridOrders = gm.gridOrders := by
  cases b
  · exact (updatePosition_sell_frame gm q p).1
  · exact (updatePosition_buy_frame gm q p).1

/-- The book effect of `addOrder`: unchanged on risk rejection, otherwise a
push of the freshly created open order under its grid level. -/
theorem addOrder_gridOrders (gm : GridOrderManager) (side : Side) (price lvl : ℚ) :
    (gm.addOrder side price lvl).1.gridOrders =
      (if gm.riskManager.canPlaceOrder side gm.minOrderQuantity price = false then
        gm.gridOrders
      else bookPush gm.gridOrders lvl
        { orderId := gm.orderCounter + 1, side := side, price := price,
          quantity := gm.minOrderQuantity, gridLevel := lvl, isOpen := true }) := by
  unfold GridOrderManager.addOrder
  split_ifs with h
  · rfl
  · rw [updatePosition_gridOrders]
    rfl

/-- The success flag of `addOrder` is exactly the risk check. -/
theorem addOrder_snd (gm : GridOrderManager) (side : Side) (price lvl : ℚ) :
    (gm.addOrder side price lvl).2 =
      gm.riskManager.canPlaceOrder side gm.minOrderQuantity price := by
  unfold GridOrderManager.addOrder
  split_ifs with h
  · exact h.symm
  · simp only [Bool.not_eq_false] at h
    exact h.symm

theorem addOrder_bookWF (gm : GridOrderManager) (side : Side) (price lvl : ℚ)
    (hwf : BookWF gm.gridOrders) (hsp : gm.shouldPlaceOrderAtGrid lvl side = true) :
    BookWF (gm.addOrder side price lvl).1.gridOrders := by
  rw [addOrder_gridOrders]
  split_ifs with h
  · exact hwf
  · exact bookWF_push gm.gridOrders lvl _ hwf hsp

theorem crossingStep_bookWF (price : ℚ) (gm : GridOrderManager) (a b : ℚ)
    (hwf : BookWF gm.gridOrders) : BookWF (crossingStep price gm a b).gridOrders := by
  unfold crossingStep
  split_ifs with h1 h2 h3 h4 h5 <;>
    first
      | exact hwf
      | exact addOrder_bookWF gm Side.buy price a hwf h3
      | exact addOrder_bookWF gm Side.sell price b hwf h5

theorem crossingLoop_bookWF (price : ℚ) (gm : GridOrderManager) (levels : List ℚ)
    (hwf : BookWF gm.gridOrders) : BookWF (crossingLoop price gm levels).gridOrders := by
  induction levels generalizing gm with
  | nil => exact hwf
  | cons a tail ih =>
    cases tail with
    | nil => exact hwf
    | cons b rest =>
      rw [crossingLoop_cons]
      exact ih (crossingStep price gm a b) (crossingStep_bookWF price gm a b hwf)

theorem reconcileBook_fst_sublist (book : Book) (nl : List ℚ) :
    (reconcileBook book nl).1.Sublist book := by
  induction book with
  | nil => exact List.Sublist.refl _
  | cons e rest ih =>
    obtain ⟨k, os⟩ := e
    rw [reconcileBook_cons]
    by_cases h : k ∈ nl
    · rw [if_pos h]
      exact ih.cons₂ (k, os)
    · rw [if_neg h]
      exact ih.cons (k, os)

theorem reconcileBook_bookWF (book : Book) (nl : List ℚ) (hwf : BookWF book) :
    BookWF (reconcileBook book nl).1 := by
  have hsub := reconcileBook_fst_sublist book nl
  exact ⟨hwf.1.sublist (hsub.map Prod.fst), fun e he => hwf.2 e (hsub.subset he)⟩

theorem updateGrids_bookWF (gm : GridOrderManager) (cp : ℚ) (nl : List ℚ)
    (hwf : BookWF gm.gridOrders) : BookWF (gm.updateGrids cp nl).gridOrders :=
  reconcileBook_bookWF gm.gridOrders nl hwf

/-- The ledger/equity invariant: every recorded trade id is at most the
current counter (so the next generated id is fresh), and the current equity
is the initial equity plus the ledger total. -/
def LedgerInv (gm : GridOrderManager) : Prop :=
  (∀ e ∈ gm.realizedPnL, e.1 ≤ gm.orderCounter)
  ∧ gm.riskManager.currentEquity = gm.riskManager.initialEquity + ledgerSum gm.realizedPnL

theorem updatePosition_ledgerInv (gm : GridOrderManager) (q p : ℚ) (b : Bool)
    (h : LedgerInv gm) : LedgerInv (gm.updatePosition q p b) := by
  cases b
  · obtain ⟨hk, he⟩ := h
    obtain ⟨-, hl, hr, hi⟩ := updatePosition_sell_effect gm q p
    have hcnt : (gm.updatePosition q p false).orderCounter = gm.orderCounter + 1 :=
      (updatePosition_sell_frame gm q p).2.2.2
    have hfresh : ∀ e ∈ gm.realizedPnL, e.1 ≠ gm.orderCounter + 1 := by
      intro e hm
      have := hk e hm
      omega
    constructor
    · intro e hm
      rw [hl, mapAssign_fresh _ _ _ hfresh] at hm
      rw [hcnt]
      rcases List.mem_append.1 hm with hm1 | hm2
      · have := hk e hm1
        omega
      · rw [List.mem_singleton] at hm2
        subst hm2
        omega
    · rw [hl, mapAssign_fresh _ _ _ hfresh, ledgerSum_append_single, hr, hi, he]
      ring
  · obtain ⟨-, hl, hr, hn⟩ := updatePosition_buy_frame gm q p
    constructor
    · intro e hm
      rw [hl] at hm
      rw [hn]
      exact h.1 e hm
    · rw [hl, hr]
      exact h.2

theorem addOrder_ledgerInv (gm : GridOrderManager) (side : Side) (price lvl : ℚ)
    (h : LedgerInv gm) : LedgerInv (gm.addOrder side price lvl).1 := by
  unfold GridOrderManager.addOrder
  split_ifs with hr
  · exact h
  · apply updatePosition_ledgerInv
    constructor
    · intro e hm
      simp only [GridOrderManager.generateOrderId] at hm ⊢
      have := h.1 e hm
      omega
    · simpa [GridOrderManager.generateOrderId] using h.2

theorem crossingStep_ledgerInv (price : ℚ) (gm : GridOrderManager) (a b : ℚ)
    (h : LedgerInv gm) : LedgerInv (crossingStep price gm a b) := by
  unfold crossingStep
  split_ifs <;> first | exact h | exact addOrder_ledgerInv gm _ price _ h

theorem crossingLoop_ledgerInv (price : ℚ) (gm : GridOrderManager) (levels : List ℚ)
    (h : LedgerInv gm) : LedgerInv (crossingLoop price gm levels) := by
  induction levels generalizing gm with
  | nil => exact h
  | cons a tail ih =>
    cases tail with
    | nil => exact h
    | cons b rest =>
      rw [crossingLoop_cons]
      exact ih (crossingStep price gm a b) (crossingStep_ledgerInv price gm a b h)

theorem updateGrids_ledgerInv (gm : GridOrderManager) (cp : ℚ) (nl : List ℚ)
    (h : LedgerInv gm) : LedgerInv (gm.updateGrids cp nl) := h

/-- Every reachable engine state has a well-formed book and the ledger/equity
invariant. -/
theorem reachable_inv (cfg : Config) (gm : GridOrderManager) (h : Reachable cfg gm) :
    BookWF gm.gridOrders ∧ LedgerInv gm := by
  induction h with
  | init =>
    refine ⟨bookWF_nil, ?_, ?_⟩
    · intro e hm
      cases hm
    · simp [initManager, RiskManager.init, ledgerSum]
  | step price hr ih =>
    unfold tick
    exact ⟨crossingLoop_bookWF _ _ _ (updateGrids_bookWF _ _ _ ih.1),
      crossingLoop_ledgerInv _ _ _ (updateGrids_ledgerInv _ _ _ ih.2)⟩

/-! ### Open orders per (level, side) -/

theorem openOrdersAt_nil (lvl : ℚ) (side : Side) : openOrdersAt [] lvl side = [] := rfl

theorem openOrdersAt_cons (k : ℚ) (os : List Order) (rest : Book) (lvl : ℚ) (side : Side) :
    openOrdersAt ((k, os) :: rest) lvl side =
      (if k = lvl then os.filter (fun o => o.isOpen && decide (o.side = side)) else [])
        ++ openOrdersAt rest lvl side := by
  unfold openOrdersAt
  by_cases h : k = lvl
  · rw [if_pos h]
    rw [List.filter_cons_of_pos (by simpa using h)]
    rw [List.flatMap_cons, List.filter_append]
  · rw [if_neg h]
    rw [List.filter_cons_of_neg (by simpa using h), List.nil_append]

theorem openOrdersAt_of_key_not_mem (book : Book) (lvl : ℚ) (side : Side)
    (h : lvl ∉ book.map Prod.fst) : openOrdersAt book lvl side = [] := by
  induction book with
  | nil => rfl
  | cons e rest ih =>
    obtain ⟨k, os⟩ := e
    rw [List.map_cons, List.mem_cons] at h
    push_neg at h
    rw [openOrdersAt_cons, if_neg (fun hc => h.1 hc.symm), List.nil_append]
    exact ih h.2

/-- With a well-formed book, `(openOrdersAt book lvl side).length ≤ 1`. -/
theorem openOrdersAt_le_one (book : Book) (lvl : ℚ) (side : Side) (hwf : BookWF book) :
    (openOrdersAt book lvl side).length ≤ 1 := by
  induction book with
  | nil => simp [openOrdersAt_nil]
  | cons e rest ih =>
    obtain ⟨k, os⟩ := e
    rw [bookWF_cons_iff] at hwf
    obtain ⟨hkey, hbuy, hsell, hrest⟩ := hwf
    rw [openOrdersAt_cons]
    by_cases h : k = lvl
    · rw [if_pos h]
      have hres : openOrdersAt rest lvl side = [] :=
        openOrdersAt_of_key_not_mem rest lvl side (h ▸ hkey)
      rw [hres, List.append_nil]
      cases side
      · exact hbuy
      · exact hsell
    · rw [if_neg h, List.nil_append]
      exact ih hrest

/-- With a well-formed book, `shouldPlaceOrderAtGrid` is true exactly when
there is no open order of that side at that level. -/
theorem bookShouldPlace_iff (book : Book) (lvl : ℚ) (side : Side) (hwf : BookWF book) :
    (bookShouldPlace book lvl side = true ↔ openOrdersAt book lvl side = []) := by
  induction book with
  | nil => simp [bookShouldPlace, bookFind_nil, openOrdersAt_nil]
  | cons e rest ih =>
    obtain ⟨k, os⟩ := e
    rw [bookWF_cons_iff] at hwf
    obtain ⟨hkey, hbuy, hsell, hrest⟩ := hwf
    rw [bookShouldPlace_cons, openOrdersAt_cons]
    by_cases h : k = lvl
    · rw [if_pos h, if_pos h]
      have hres : openOrdersAt rest lvl side = [] :=
        openOrdersAt_of_key_not_mem rest lvl side (h ▸ hkey)
      rw [hres, List.append_nil]
      rw [Bool.not_eq_true', List.any_eq_false]
      rw [List.filter_eq_nil_iff]
    · rw [if_neg h, if_neg h, List.nil_append]
      exact ih hrest

/-- Just after pushing an open order, `shouldPlaceOrderAtGrid` is false for
its level and side. -/
theorem bookShouldPlace_push_same (book : Book) (lvl : ℚ) (o : Order)
    (ho : o.isOpen = true) :
    bookShouldPlace (bookPush book lvl o) lvl o.side = false := by
  induction book with
  | nil =>
    rw [bookPush_nil, bookShouldPlace_cons, if_pos rfl]
    simp [ho]
  | cons e rest ih =>
    obtain ⟨k, os⟩ := e
    rw [bookPush_cons]
    by_cases h : k = lvl
    · rw [if_pos h, bookShouldPlace_cons, if_pos h]
      simp [ho]
    · rw [if_neg h, bookShouldPlace_cons, if_neg h]
      exact ih

/-- Pushing an order leaves `shouldPlaceOrderAtGrid` for the opposite side
at its level unchanged. -/
theorem bookShouldPlace_push_other (book : Book) (lvl : ℚ) (o : Order) (side' : Side)
    (hs : side' ≠ o.side) :
    bookShouldPlace (bookPush book lvl o) lvl side' = bookShouldPlace book lvl side' := by
  have hoside : (decide (o.side = side')) = false := by
    simp
    exact fun hc => hs hc.symm
  induction book with
  | nil =>
    rw [bookPush_nil, bookShouldPlace_cons, if_pos rfl]
    simp only [bookShouldPlace, bookFind_nil]
    simp [hoside]
  | cons e rest ih =>
    obtain ⟨k, os⟩ := e
    rw [bookPush_cons]
    by_cases h : k = lvl
    · rw [if_pos h, bookShouldPlace_cons, if_pos h, bookShouldPlace_cons, if_pos h]
      rw [List.any_append]
      simp [hoside]
    · rw [if_neg h, bookShouldPlace_cons, if_neg h, bookShouldPlace_cons, if_neg h]
      exact ih

/-! ### C1 -/

/-- C1: (a) in every engine state reachable by ticks there is at most one
open order per (grid level, side) pair; (b) with a well-formed book,
`shouldPlaceOrderAtGrid(level, side)` is true exactly when the level has no
currently open order of that side; (c) immediately after a successful
`addOrder` for `(level, side)`, `shouldPlaceOrderAtGrid` is false for that
pair while the answer for the opposite side at that level is unchanged. -/
theorem C1_at_most_one_open_order :
    (∀ (cfg : Config) (gm : GridOrderManager), Reachable cfg gm →
        ∀ (lvl : ℚ) (side : Side), (openOrdersAt gm.gridOrders lvl side).length ≤ 1)
    ∧ (∀ (gm : GridOrderManager) (lvl : ℚ) (side : Side), BookWF gm.gridOrders →
        (gm.shouldPlaceOrderAtGrid lvl side = true ↔
          openOrdersAt gm.gridOrders lvl side = []))
    ∧ (∀ (gm : GridOrderManager) (side : Side) (price lvl : ℚ),
        (gm.addOrder side price lvl).2 = true →
          (gm.addOrder side price lvl).1.shouldPlaceOrderAtGrid lvl side = false
          ∧ ∀ side' : Side, side' ≠ side →
              (gm.addOrder side price lvl).1.shouldPlaceOrderAtGrid lvl side' =
                gm.shouldPlaceOrderAtGrid lvl side') := by
  refine ⟨?_, ?_, ?_⟩
  · intro cfg gm hr lvl side
    exact openOrdersAt_le_one gm.gridOrders lvl side (reachable_inv cfg gm hr).1
  · intro gm lvl side hwf
    exact bookShouldPlace_iff gm.gridOrders lvl side hwf
  · intro gm side price lvl hsucc
    rw [addOrder_snd] at hsucc
    have hneg : ¬ gm.riskManager.canPlaceOrder side gm.minOrderQuantity price = false := by
      rw [hsucc]
      simp
    constructor
    · show bookShouldPlace (gm.addOrder side price lvl).1.gridOrders lvl side = false
      rw [addOrder_gridOrders, if_neg hneg]
      exact bookShouldPlace_push_same gm.gridOrders lvl _ rfl
    · intro side' hs'
      show bookShouldPlace (gm.addOrder side price lvl).1.gridOrders lvl side' =
        bookShouldPlace gm.gridOrders lvl side'
      rw [addOrder_gridOrders, if_neg hneg]
      exact bookShouldPlace_push_other gm.gridOrders lvl _ side' hs'

theorem C1_witness :
    (openOrdersAt (initManager sampleConfig).gridOrders 100 Side.buy).length ≤ 1
    ∧ (sampleManager.shouldPlaceOrderAtGrid 100 Side.sell = true ↔
        openOrdersAt sampleManager.gridOrders 100 Side.sell = [])
    ∧ ((initManager sampleConfig).addOrder Side.buy 100 100).1.shouldPlaceOrderAtGrid
        100 Side.buy = false :=
  ⟨C1_at_most_one_open_order.1 sampleConfig (initManager sampleConfig) Reachable.init
      100 Side.buy,
   C1_at_most_one_open_order.2.1 sampleManager 100 Side.sell
     (by
       constructor
       · simp [sampleManager, initManager]
       · intro e he
         simp only [sampleManager] at he
         rcases List.mem_singleton.1 he with rfl
         constructor <;> simp [sideCount, sampleOrder, List.filter]),
   ((C1_at_most_one_open_order.2.2 (initManager sampleConfig) Side.buy 100 100
     (by
       rw [addOrder_snd]
       show RiskManager.canPlaceOrder _ Side.buy 1 100 = true
       rw [RiskManager.canPlaceOrder]
       norm_num [initManager, RiskManager.init, sampleConfig])).1)⟩

/-! ### C6 -/

/-- C6: in every reachable engine state, the current equity equals the
initial equity plus the sum of all realized-PnL ledger entries; equity is
only ever changed by `updateEquity` on a sell, with the same delta that is
recorded in the ledger. -/
theorem C6_equity_invariant (cfg : Config) (gm : GridOrderManager)
    (h : Reachable cfg gm) :
    gm.riskManager.currentEquity =
      gm.riskManager.initialEquity + ledgerSum gm.realizedPnL :=
  (reachable_inv cfg gm h).2.2

theorem C6_witness :
    (tick sampleConfig (219/2) (tick sampleConfig (201/2)
        (initManager sampleConfig))).riskManager.currentEquity =
      (tick sampleConfig (219/2) (tick sampleConfig (201/2)
        (initManager sampleConfig))).riskManager.initialEquity +
        ledgerSum (tick sampleConfig (219/2) (tick sampleConfig (201/2)
          (initManager sampleConfig))).realizedPnL :=
  C6_equity_invariant sampleConfig _
    (Reachable.step (219/2) (Reachable.step (201/2) Reachable.init))

end GridCpp
